import Mathlib

/-!
Shallow embedding of the form-validation hook of the repository
(src/src/hook/form-validator.ts together with the rule model of
src/unnamed/part_000, the file that declares IRule and IRuleMessage).

Modelling conventions:
- JavaScript values that the validator can observe are embedded as the
  inductive type Value; numbers are restricted to integers (the claims under
  study only involve integer data) and JS truthiness, string coercion and
  numeric coercion are embedded explicitly.
- External collaborators (the react-i18next t function, the RegExp objects
  and the moment.js date operations) are embedded by their interfaces,
  collected in the Env structure: a regular expression becomes its test
  function, moment comparisons become Boolean-valued functions of the value
  and the formatted target.
- Caller-supplied executable code (the custom check and the source text
  compiled by new Function) is embedded by its behaviour: a function into
  JsOutcome, where the thrown constructor stands for a raised exception.
- validate returns Except Unit (Bool x ErrMap): the error case models an
  exception propagating out of the call, the ok case carries the returned
  Boolean together with the errors record passed to setErrors.
-/

namespace FormValidator

/-- JavaScript values observable by the validator (numbers restricted to
integers). -/
inductive Value where
  | vUndefined
  | vNull
  | vBool (b : Bool)
  | vNum (n : Int)
  | vStr (s : String)
  deriving DecidableEq

open Value

/-- JS truthiness of a value (used by the bang operator in the source). -/
def truthy : Value → Bool
  | vUndefined => false
  | vNull => false
  | vBool b => b
  | vNum n => n != 0
  | vStr s => s != ""

/-- line 108 guard: value is neither undefined nor null. -/
def nonNull : Value → Bool
  | vUndefined => false
  | vNull => false
  | _ => true

/-- typeof valid === "string" test of lines 221 and 229. -/
def isStringV : Value → Bool
  | vStr _ => true
  | _ => false

/-- JS String(value) coercion, used where the source casts value as string
for a RegExp test or stores it into the errors record. -/
def toJsString : Value → String
  | vUndefined => "undefined"
  | vNull => "null"
  | vBool b => if b then "true" else "false"
  | vNum n => toString n
  | vStr s => s

/-- the length property read by (value as string).length: only strings have
it, every other value yields undefined (none). -/
def jsLength : Value → Option Nat
  | vStr s => some s.length
  | _ => none

/-- JS ToNumber coercion as used by the relational operators of the min and
max checks; none stands for NaN.  Strings are parsed as optional integers,
matching the integer restriction of the embedding. -/
def toNum : Value → Option Int
  | vUndefined => none
  | vNull => some 0
  | vBool b => some (if b then 1 else 0)
  | vNum n => some n
  | vStr s => if s.trim = "" then some 0 else s.trim.toInt?

/-- JS relational x < n where x may be undefined or NaN (comparison with
either is false). -/
def optLt : Option Int → Int → Bool
  | some m, n => m < n
  | none, _ => false

/-- JS relational x > n where x may be undefined or NaN. -/
def optGt : Option Int → Int → Bool
  | some m, n => n < m
  | none, _ => false

/-- the data record passed to validate. -/
abbrev Data := List (String × Value)

/-- the errors record accumulated by validate (insertion ordered, one entry
per key). -/
abbrev ErrMap := List (String × String)

/-- property read data[key]: an absent key reads as undefined. -/
def dataGet : Data → String → Value
  | [], _ => vUndefined
  | p :: rest, k => if p.1 = k then p.2 else dataGet rest k

/-- property read on the errors record. -/
def jsGet : ErrMap → String → Option String
  | [], _ => none
  | p :: rest, k => if p.1 = k then some p.2 else jsGet rest k

/-- property assignment errors[key] = v: overwrites in place when the key is
present, appends otherwise. -/
def jsSet : ErrMap → String → String → ErrMap
  | [], k, v => [(k, v)]
  | p :: rest, k, v => if p.1 = k then (k, v) :: rest else p :: jsSet rest k v

/-- a rule option of type T | IRuleMessage of T: either the bare value or the
override record carrying value and message (distinguished by isRuleMessage,
lines 76 to 78). -/
inductive RuleArg (α : Type) where
  | plain (v : α)
  | withMsg (v : α) (message : String)

/-- the comparison value of a rule option (the bare value, or the value field
of the override record). -/
def RuleArg.value {α : Type} : RuleArg α → α
  | .plain v => v
  | .withMsg v _ => v

/-- message resolution of every check: the override message verbatim when the
option is an override record, otherwise the supplied default text. -/
def ruleMsg {α : Type} : RuleArg α → String → String
  | .plain _, _d => _d
  | .withMsg _ m, _ => m

/-- outcome of invoking caller-supplied JS code: a returned value, or a
raised exception. -/
inductive JsOutcome where
  | ret (v : Value)
  | thrown

/-- the blockly option of a rule: the caller-supplied source text (whose JS
truthiness gates the check, line 226) together with the behaviour of
new Function applied to it; thrown covers both a compilation and a runtime
exception. -/
structure BlocklyCheck where
  source : String
  run : Data → JsOutcome

/-- IRule of src/unnamed/part_000, extended with the custom and blockly
options that form-validator.ts reads (their declarations are not under src,
so they are embedded from their use: custom is invoked with the data record
and the key, blockly is source text compiled with data as sole argument). -/
structure Rule where
  required : Option (RuleArg Unit) := none
  isEmail : Option (RuleArg Unit) := none
  isURL : Option (RuleArg Unit) := none
  minLength : Option (RuleArg Int) := none
  maxLength : Option (RuleArg Int) := none
  pattern : Option (RuleArg (String → Bool)) := none
  min : Option (RuleArg Int) := none
  max : Option (RuleArg Int) := none
  ltDate : Option (RuleArg String) := none
  lteDate : Option (RuleArg String) := none
  gtDate : Option (RuleArg String) := none
  gteDate : Option (RuleArg String) := none
  custom : Option (Data → String → JsOutcome) := none
  blockly : Option BlocklyCheck := none

/-- IKeyRule: a rule tagged with its field key. -/
structure KeyRule where
  key : String
  rule : Rule

/-- a declared entry of the rules record: the Boolean shorthand (lines 47 to
48) or a full rule specification. -/
inductive RuleSpec where
  | shorthand
  | full (r : Rule)

/-- lines 44 to 53: updateRules normalization of the declared record into the
list of keyed rules (insertion order preserved). -/
def normalize (decl : List (String × RuleSpec)) : List KeyRule :=
  decl.map (fun p =>
    match p.2 with
    | .shorthand => ⟨p.1, { required := some (.plain ()) }⟩
    | .full r => ⟨p.1, r⟩)

/-- the mutable state held by the hook that the claims depend on: the
rules.current ref. -/
structure HookState where
  rules : List KeyRule

/-- lines 44 to 53: updateRules replaces the held rule set atomically,
independent of the previous state. -/
def updateRules (_s : HookState) (decl : List (String × RuleSpec)) : HookState :=
  { rules := normalize decl }

/-- external collaborators of the validator, embedded by their interfaces:
the i18n lookup t, the options record (lines 17 to 24), the two module-level
default regular expressions (lines 28 to 29) as test functions, and the
moment.js operations used by the date checks. -/
structure Env where
  t : String → List (String × Value) → String
  prefixCfg : Option (Option String) := none
  emailRegex : Option (String → Bool) := none
  urlRegex : Option (String → Bool) := none
  defaultEmailTest : String → Bool
  defaultUrlTest : String → Bool
  fmtTarget : String → String
  isBefore : Value → String → Bool
  isSameOrBefore : Value → String → Bool
  isAfter : Value → String → Bool
  isSameOrAfter : Value → String → Bool

/-- lines 66 to 74: getTranslation.  prefixCfg encodes
options.translation.prefix, with none for undefined, some none for null and
some (some p) for the string p. -/
def getTranslation (env : Env) (key : String) (values : List (String × Value)) : String :=
  match env.prefixCfg with
  | some none => env.t key values
  | none => env.t ("Validation." ++ key) values
  | some (some p) => env.t (p ++ "." ++ key) values

/-- JS truthiness of rule.required (true or an override record: truthy
whenever present). -/
def requiredTruthy : Option (RuleArg Unit) → Bool
  | none => false
  | some _ => true

/-- JS truthiness of a date rule option (string, Date or override record): a
bare empty string is falsy, an override record is an object and truthy. -/
def dateArgTruthy : Option (RuleArg String) → Bool
  | none => false
  | some (.plain s) => s != ""
  | some (.withMsg _ _) => true

/-- lines 102 to 106: the message recorded when the required check fails. -/
def requiredMsg (env : Env) (arg : RuleArg Unit) : String :=
  ruleMsg arg (getTranslation env "This field is required" [])

/-- lines 109 to 117: the isEmail check.  none means absent or passing, some
msg means the check is configured and fails on the value with that message. -/
def checkIsEmail (env : Env) (r : Rule) (value : Value) : Option String :=
  match r.isEmail with
  | none => none
  | some arg =>
    let test := env.emailRegex.getD env.defaultEmailTest
    if test (toJsString value) then none
    else some (ruleMsg arg (getTranslation env "Invalid email address" []))

/-- lines 118 to 126: the isURL check. -/
def checkIsURL (env : Env) (r : Rule) (value : Value) : Option String :=
  match r.isURL with
  | none => none
  | some arg =>
    let test := env.urlRegex.getD env.defaultUrlTest
    if test (toJsString value) then none
    else some (ruleMsg arg (getTranslation env "Invalid URL" []))

/-- lines 127 to 135: the minLength check. -/
def checkMinLength (env : Env) (r : Rule) (value : Value) : Option String :=
  match r.minLength with
  | none => none
  | some arg =>
    if optLt ((jsLength value).map Int.ofNat) arg.value then
      some (ruleMsg arg
        (getTranslation env "Minimum length is \x7b\x7bvalue\x7d\x7d" [("value", vNum arg.value)]))
    else none

/-- lines 136 to 144: the maxLength check. -/
def checkMaxLength (env : Env) (r : Rule) (value : Value) : Option String :=
  match r.maxLength with
  | none => none
  | some arg =>
    if optGt ((jsLength value).map Int.ofNat) arg.value then
      some (ruleMsg arg
        (getTranslation env "Maximum length is \x7b\x7bvalue\x7d\x7d" [("value", vNum arg.value)]))
    else none

/-- lines 145 to 153: the pattern check (a RegExp object is always truthy, so
the check runs whenever configured). -/
def checkPattern (env : Env) (r : Rule) (value : Value) : Option String :=
  match r.pattern with
  | none => none
  | some arg =>
    if arg.value (toJsString value) then none
    else some (ruleMsg arg (getTranslation env "Invalid value" []))

/-- lines 154 to 162: the min check. -/
def checkMin (env : Env) (r : Rule) (value : Value) : Option String :=
  match r.min with
  | none => none
  | some arg =>
    if optLt (toNum value) arg.value then
      some (ruleMsg arg
        (getTranslation env "Minimum value is \x7b\x7bvalue\x7d\x7d" [("value", vNum arg.value)]))
    else none

/-- lines 163 to 171: the max check. -/
def checkMax (env : Env) (r : Rule) (value : Value) : Option String :=
  match r.max with
  | none => none
  | some arg =>
    if optGt (toNum value) arg.value then
      some (ruleMsg arg
        (getTranslation env "Maximum value is \x7b\x7bvalue\x7d\x7d" [("value", vNum arg.value)]))
    else none

/-- lines 172 to 182: the ltDate check. -/
def checkLtDate (env : Env) (r : Rule) (value : Value) : Option String :=
  if dateArgTruthy r.ltDate then
    match r.ltDate with
    | none => none
    | some arg =>
      let date := env.fmtTarget arg.value
      if env.isBefore value date then none
      else some (ruleMsg arg
        (getTranslation env "Date must be before \x7b\x7bvalue\x7d\x7d" [("value", vStr date)]))
  else none

/-- lines 183 to 193: the lteDate check. -/
def checkLteDate (env : Env) (r : Rule) (value : Value) : Option String :=
  if dateArgTruthy r.lteDate then
    match r.lteDate with
    | none => none
    | some arg =>
      let date := env.fmtTarget arg.value
      if env.isSameOrBefore value date then none
      else some (ruleMsg arg
        (getTranslation env "Date must be on or before \x7b\x7bvalue\x7d\x7d" [("value", vStr date)]))
  else none

/-- lines 194 to 204: the gtDate check. -/
def checkGtDate (env : Env) (r : Rule) (value : Value) : Option String :=
  if dateArgTruthy r.gtDate then
    match r.gtDate with
    | none => none
    | some arg =>
      let date := env.fmtTarget arg.value
      if env.isAfter value date then none
      else some (ruleMsg arg
        (getTranslation env "Date must be after \x7b\x7bvalue\x7d\x7d" [("value", vStr date)]))
  else none

/-- lines 205 to 215: the gteDate check. -/
def checkGteDate (env : Env) (r : Rule) (value : Value) : Option String :=
  if dateArgTruthy r.gteDate then
    match r.gteDate with
    | none => none
    | some arg =>
      let date := env.fmtTarget arg.value
      if env.isSameOrAfter value date then none
      else some (ruleMsg arg
        (getTranslation env "Date must be on or after \x7b\x7bvalue\x7d\x7d" [("value", vStr date)]))
  else none

/-- the eleven value checks of lines 109 to 215, in source order. -/
def builtinResults (env : Env) (r : Rule) (value : Value) : List (Option String) :=
  [checkIsEmail env r value, checkIsURL env r value,
   checkMinLength env r value, checkMaxLength env r value,
   checkPattern env r value, checkMin env r value, checkMax env r value,
   checkLtDate env r value, checkLteDate env r value,
   checkGtDate env r value, checkGteDate env r value]

/-- a failing check overwrites errors[key]; a passing or absent one leaves
the record unchanged. -/
def applyCheck (key : String) (errors : ErrMap) (res : Option String) : ErrMap :=
  match res with
  | some m => jsSet errors key m
  | none => errors

/-- the last some of a list of check results (the message left standing after
sequential overwriting). -/
def lastSome : List (Option String) → Option String
  | [] => none
  | c :: rest =>
    match lastSome rest with
    | some m => some m
    | none => c

/-- lines 101 to 216: the required check followed, on a non-null value, by
the eleven built-in value checks applied in source order. -/
def runChecks (env : Env) (r : Rule) (value : Value) (key : String) (errors : ErrMap) : ErrMap :=
  if requiredTruthy r.required && !truthy value then
    jsSet errors key
      (match r.required with
       | some arg => requiredMsg env arg
       | none => getTranslation env "This field is required" [])
  else if nonNull value then
    (builtinResults env r value).foldl (applyCheck key) errors
  else errors

/-- lines 218 to 224: the custom check.  It is not wrapped in try/catch, so a
raised exception propagates (the error case). -/
def runCustom (env : Env) (r : Rule) (data : Data) (key : String) (errors : ErrMap) :
    Except Unit ErrMap :=
  match r.custom with
  | none => .ok errors
  | some f =>
    match f data key with
    | .thrown => .error ()
    | .ret valid =>
      if !truthy valid || isStringV valid then
        .ok (jsSet errors key
          (if truthy valid then toJsString valid else getTranslation env "Invalid value" []))
      else .ok errors

/-- lines 226 to 239: the blockly check, wrapped in try/catch; a raised
exception is converted into a fixed message for the field. -/
def runBlockly (env : Env) (r : Rule) (data : Data) (key : String) (errors : ErrMap) : ErrMap :=
  match r.blockly with
  | none => errors
  | some b =>
    if b.source != "" then
      match b.run data with
      | .thrown => jsSet errors key (getTranslation env "Validation error (blockly)" [])
      | .ret valid =>
        if !truthy valid || isStringV valid then
          jsSet errors key
            (if truthy valid then toJsString valid else getTranslation env "Invalid value" [])
        else errors
    else errors

/-- lines 97 to 240: one iteration of the loop over the rules. -/
def processRule (env : Env) (data : Data) (errors : ErrMap) (kr : KeyRule) :
    Except Unit ErrMap :=
  match runCustom env kr.rule data kr.key
      (runChecks env kr.rule (dataGet data kr.key) kr.key errors) with
  | .error e => .error e
  | .ok errs2 => .ok (runBlockly env kr.rule data kr.key errs2)

/-- the loop of lines 97 to 240 over the whole rule list. -/
def processRules (env : Env) (data : Data) (errors : ErrMap) :
    List KeyRule → Except Unit ErrMap
  | [] => .ok errors
  | kr :: rest =>
    match processRule env data errors kr with
    | .error e => .error e
    | .ok errs => processRules env data errs rest

/-- lines 85 to 246: validate.  The ok case carries the returned Boolean and
the errors record published through setErrors; the error case models an
exception propagating out of the call. -/
def validate (env : Env) (rules : List KeyRule) (data : Data) :
    Except Unit (Bool × ErrMap) :=
  if rules.isEmpty then .ok (true, [])
  else
    match processRules env data [] rules with
    | .error e => .error e
    | .ok errors => .ok (errors.isEmpty, errors)

/-- whether a validate call returned (rather than raised). -/
def isOkRes : Except Unit (Bool × ErrMap) → Bool
  | .ok _ => true
  | .error _ => false

/-- the errors record of a validate result (empty when the call raised). -/
def errsOf : Except Unit (Bool × ErrMap) → ErrMap
  | .ok p => p.2
  | .error _ => []

/-- every configured custom check of the rule list returns a value (rather
than raising) on the given data. -/
@[reducible]
def customsReturn (rules : List KeyRule) (data : Data) : Prop :=
  ∀ kr ∈ rules, ∀ f, kr.rule.custom = some f → ∃ v, f data kr.key = .ret v

/-- the rule with every built-in value check removed (only required, custom
and blockly kept). -/
def stripBuiltins (r : Rule) : Rule :=
  { required := r.required, custom := r.custom, blockly := r.blockly }

/-- a concrete environment used to instantiate the universally quantified
statements: the lookup function returns its key, the default regular
expressions reject everything, dates are left unformatted and every date
comparison is false. -/
def trivEnv : Env where
  t := fun key _ => key
  defaultEmailTest := fun _ => false
  defaultUrlTest := fun _ => false
  fmtTarget := fun s => s
  isBefore := fun _ _ => false
  isSameOrBefore := fun _ _ => false
  isAfter := fun _ _ => false
  isSameOrAfter := fun _ _ => false

/-- a rule declaring only the required check (the normalized form of the
Boolean shorthand). -/
def onlyRequiredRule : Rule :=
  { required := some (.plain ()) }

/-- the matching function of the regular expression of one or more digits. -/
def digitsOnly (s : String) : Bool :=
  !s.data.isEmpty && s.data.all (fun c => '0' ≤ c && c ≤ '9')

/-- a rule combining minLength 5 with the digits-only pattern. -/
def c1Rule : Rule :=
  { minLength := some (.plain 5), pattern := some (.plain digitsOnly) }

/-- a rule whose required check is declared and whose custom check always
fails with the message bad. -/
def c2Rule : Rule :=
  { required := some (.plain ())
    custom := some (fun _ _ => .ret (vStr "bad")) }

/-- a rule whose required check is declared and whose blockly check always
fails with the message bbad. -/
def c2bRule : Rule :=
  { required := some (.plain ())
    blockly := some ⟨"return false", fun _ => .ret (vStr "bbad")⟩ }

/-- a rule whose custom check raises. -/
def throwingRule : Rule :=
  { custom := some (fun _ _ => .thrown) }

/-- a rule whose custom check returns the truthy non-Boolean non-string
value 5. -/
def truthyNumRule : Rule :=
  { custom := some (fun _ _ => .ret (vNum 5)) }

/-- a rule whose required check is declared with an override record. -/
def c5Rule : Rule :=
  { required := some (.withMsg () "M") }

/-- a rule whose blockly source raises when executed. -/
def blocklyThrowRule : Rule :=
  { blockly := some ⟨"boom()", fun _ => .thrown⟩ }

/-- combination of two sequential overwrites at the same key: the later write
wins when present. -/
def overrideW : Option String → Option String → Option String
  | some m, _ => some m
  | none, w => w

theorem jsSet_jsSet (m : ErrMap) (k a b : String) :
    jsSet (jsSet m k a) k b = jsSet m k b := by
  induction m with
  | nil => simp [jsSet]
  | cons p rest ih =>
    by_cases h : p.1 = k
    · simp [jsSet, h]
    · simp [jsSet, h, ih]

theorem jsGet_jsSet_self (m : ErrMap) (k v : String) :
    jsGet (jsSet m k v) k = some v := by
  induction m with
  | nil => simp [jsSet, jsGet]
  | cons p rest ih =>
    by_cases h : p.1 = k
    · simp [jsSet, jsGet, h]
    · simp [jsSet, jsGet, h, ih]

theorem jsGet_jsSet_ne (m : ErrMap) (k v k' : String) (h : k' ≠ k) :
    jsGet (jsSet m k v) k' = jsGet m k' := by
  induction m with
  | nil => simp [jsSet, jsGet, Ne.symm h]
  | cons p rest ih =>
    by_cases hp : p.1 = k
    · subst hp
      simp [jsSet, jsGet, Ne.symm h]
    · simp [jsSet, jsGet, hp, ih]

theorem mem_jsSet (m : ErrMap) (k v : String) (x : String × String)
    (h : x ∈ jsSet m k v) : x ∈ m ∨ x.1 = k := by
  induction m with
  | nil =>
    simp [jsSet] at h
    subst h
    right
    rfl
  | cons p rest ih =>
    by_cases hp : p.1 = k
    · simp only [jsSet, if_pos hp, List.mem_cons] at h
      rcases h with h | h
      · right
        rw [h]
      · exact Or.inl (List.mem_cons_of_mem _ h)
    · simp only [jsSet, if_neg hp, List.mem_cons] at h
      rcases h with h | h
      · exact Or.inl (h ▸ List.mem_cons_self _ _)
      · rcases ih h with h' | h'
        · exact Or.inl (List.mem_cons_of_mem _ h')
        · exact Or.inr h'

theorem foldl_applyCheck (k : String) (l : List (Option String)) (errors : ErrMap) :
    l.foldl (applyCheck k) errors = applyCheck k errors (lastSome l) := by
  induction l generalizing errors with
  | nil => rfl
  | cons c rest ih =>
    have hstep : (c :: rest).foldl (applyCheck k) errors =
        rest.foldl (applyCheck k) (applyCheck k errors c) := rfl
    rw [hstep, ih]
    cases hr : lastSome rest with
    | some m =>
      cases c with
      | none => simp [lastSome, hr, applyCheck]
      | some a => simp [lastSome, hr, applyCheck, jsSet_jsSet]
    | none =>
      cases c with
      | none => simp [lastSome, hr, applyCheck]
      | some a => simp [lastSome, hr, applyCheck]

theorem filterMap_nil_of_lastSome_none (l : List (Option String))
    (h : lastSome l = none) : l.filterMap id = [] := by
  induction l with
  | nil => rfl
  | cons c rest ih =>
    cases hr : lastSome rest with
    | some m => simp [lastSome, hr] at h
    | none =>
      have hc : c = none := by simpa [lastSome, hr] using h
      subst hc
      simpa using ih hr

theorem applyCheck_applyCheck (k : String) (errors : ErrMap) (w1 w2 : Option String) :
    applyCheck k (applyCheck k errors w1) w2 = applyCheck k errors (overrideW w2 w1) := by
  cases w2 with
  | some m =>
    cases w1 with
    | some a => simp [applyCheck, overrideW, jsSet_jsSet]
    | none => simp [applyCheck, overrideW]
  | none => simp [applyCheck, overrideW]

theorem runChecks_shape (env : Env) (r : Rule) (value : Value) (key : String) :
    ∃ w, ∀ errors, runChecks env r value key errors = applyCheck key errors w := by
  by_cases h1 : (requiredTruthy r.required && !truthy value) = true
  · refine ⟨some (match r.required with
      | some arg => requiredMsg env arg
      | none => getTranslation env "This field is required" []), fun errors => ?_⟩
    simp [runChecks, h1, applyCheck]
  · by_cases h2 : nonNull value = true
    · refine ⟨lastSome (builtinResults env r value), fun errors => ?_⟩
      simp [runChecks, h1, h2, foldl_applyCheck]
    · refine ⟨none, fun errors => ?_⟩
      simp [runChecks, h1, h2, applyCheck]

theorem runCustom_shape (env : Env) (r : Rule) (data : Data) (key : String) :
    (∀ errors, runCustom env r data key errors = .error ()) ∨
    (∃ w, ∀ errors, runCustom env r data key errors = .ok (applyCheck key errors w)) := by
  cases hc : r.custom with
  | none => exact Or.inr ⟨none, fun errors => by simp [runCustom, hc, applyCheck]⟩
  | some f =>
    cases hv : f data key with
    | thrown => exact Or.inl (fun errors => by simp [runCustom, hc, hv])
    | ret valid =>
      by_cases hb : (!truthy valid || isStringV valid) = true
      · refine Or.inr ⟨some (if truthy valid then toJsString valid
          else getTranslation env "Invalid value" []), fun errors => ?_⟩
        simp [runCustom, hc, hv, hb, applyCheck]
      · refine Or.inr ⟨none, fun errors => ?_⟩
        simp [runCustom, hc, hv, hb, applyCheck]

theorem runBlockly_shape (env : Env) (r : Rule) (data : Data) (key : String) :
    ∃ w, ∀ errors, runBlockly env r data key errors = applyCheck key errors w := by
  cases hb : r.blockly with
  | none => exact ⟨none, fun errors => by simp [runBlockly, hb, applyCheck]⟩
  | some b =>
    by_cases hs : (b.source != "") = true
    · cases hr : b.run data with
      | thrown =>
        refine ⟨some (getTranslation env "Validation error (blockly)" []), fun errors => ?_⟩
        simp [runBlockly, hb, hs, hr, applyCheck]
      | ret valid =>
        by_cases hv : (!truthy valid || isStringV valid) = true
        · refine ⟨some (if truthy valid then toJsString valid
            else getTranslation env "Invalid value" []), fun errors => ?_⟩
          simp [runBlockly, hb, hs, hr, hv, applyCheck]
        · refine ⟨none, fun errors => ?_⟩
          simp [runBlockly, hb, hs, hr, hv, applyCheck]
    · exact ⟨none, fun errors => by simp [runBlockly, hb, hs, applyCheck]⟩

theorem processRule_shape (env : Env) (data : Data) (kr : KeyRule) :
    (∀ errors, processRule env data errors kr = .error ()) ∨
    (∃ w : Option String, ∀ errors, processRule env data errors kr =
      .ok (applyCheck kr.key errors w)) := by
  obtain ⟨w1, hw1⟩ := runChecks_shape env kr.rule (dataGet data kr.key) kr.key
  rcases runCustom_shape env kr.rule data kr.key with hcu | ⟨w2, hw2⟩
  · exact Or.inl (fun errors => by simp [processRule, hw1, hcu])
  · obtain ⟨w3, hw3⟩ := runBlockly_shape env kr.rule data kr.key
    refine Or.inr ⟨overrideW w3 (overrideW w2 w1), fun errors => ?_⟩
    simp [processRule, hw1, hw2, hw3, applyCheck_applyCheck]

theorem processRules_cons_ok (env : Env) (data : Data) (e : ErrMap) (kr : KeyRule)
    (rest : List KeyRule) (e1 : ErrMap) (h : processRule env data e kr = .ok e1) :
    processRules env data e (kr :: rest) = processRules env data e1 rest := by
  simp [processRules, h]

theorem processRules_append (env : Env) (data : Data) (e : ErrMap) (l1 l2 : List KeyRule) :
    processRules env data e (l1 ++ l2) =
      match processRules env data e l1 with
      | .error er => .error er
      | .ok e' => processRules env data e' l2 := by
  induction l1 generalizing e with
  | nil => simp [processRules]
  | cons kr rest ih =>
    cases hr : processRule env data e kr with
    | error er => simp [processRules, hr]
    | ok e1 => simp [processRules, hr, ih]

theorem processRule_ok_of_ret (env : Env) (data : Data) (kr : KeyRule)
    (h : ∀ f, kr.rule.custom = some f → ∃ v, f data kr.key = JsOutcome.ret v) (e : ErrMap) :
    ∃ e', processRule env data e kr = .ok e' := by
  have hcu : ∃ e2, runCustom env kr.rule data kr.key
      (runChecks env kr.rule (dataGet data kr.key) kr.key e) = .ok e2 := by
    cases hc : kr.rule.custom with
    | none =>
      refine ⟨runChecks env kr.rule (dataGet data kr.key) kr.key e, ?_⟩
      simp [runCustom, hc]
    | some f =>
      obtain ⟨v, hv⟩ := h f hc
      simp only [runCustom, hc, hv]
      by_cases hb : (!truthy v || isStringV v) = true
      · rw [if_pos hb]
        exact ⟨_, rfl⟩
      · rw [if_neg hb]
        exact ⟨_, rfl⟩
  obtain ⟨e2, h2⟩ := hcu
  refine ⟨runBlockly env kr.rule data kr.key e2, ?_⟩
  unfold processRule
  rw [h2]

theorem processRules_ok (env : Env) (data : Data) (rules : List KeyRule)
    (h : customsReturn rules data) (e : ErrMap) :
    ∃ e', processRules env data e rules = .ok e' := by
  induction rules generalizing e with
  | nil => exact ⟨e, rfl⟩
  | cons kr rest ih =>
    obtain ⟨e1, h1⟩ := processRule_ok_of_ret env data kr
      (fun f hf => h kr (List.mem_cons_self _ _) f hf) e
    obtain ⟨e', h'⟩ := ih (fun kr2 hm f hf => h kr2 (List.mem_cons_of_mem _ hm) f hf) e1
    exact ⟨e', by rw [processRules_cons_ok env data e kr rest e1 h1, h']⟩

theorem jsGet_processRule_ne (env : Env) (data : Data) (kr : KeyRule) (e e' : ErrMap)
    (h : processRule env data e kr = .ok e') (k : String) (hk : k ≠ kr.key) :
    jsGet e' k = jsGet e k := by
  rcases processRule_shape env data kr with herr | ⟨w, hw⟩
  · rw [herr e] at h
    simp at h
  · rw [hw e] at h
    obtain rfl : applyCheck kr.key e w = e' := Except.ok.inj h
    cases w with
    | none => rfl
    | some m => exact jsGet_jsSet_ne e kr.key m k hk

theorem jsGet_applyCheck_congr (k key : String) (w : Option String) (e₁ e₂ : ErrMap)
    (hk : jsGet e₁ k = jsGet e₂ k) :
    jsGet (applyCheck key e₁ w) k = jsGet (applyCheck key e₂ w) k := by
  cases w with
  | none => exact hk
  | some m =>
    by_cases hkey : k = key
    · subst hkey
      simp [applyCheck, jsGet_jsSet_self]
    · simp [applyCheck, jsGet_jsSet_ne _ _ _ _ hkey, hk]

theorem jsGet_processRules_congr (env : Env) (data : Data) (rules : List KeyRule) (k : String) :
    ∀ e₁ e₂ e₁' e₂', processRules env data e₁ rules = .ok e₁' →
      processRules env data e₂ rules = .ok e₂' →
      jsGet e₁ k = jsGet e₂ k → jsGet e₁' k = jsGet e₂' k := by
  induction rules with
  | nil =>
    intro e₁ e₂ e₁' e₂' h1 h2 hk
    simp [processRules] at h1 h2
    rw [← h1, ← h2]
    exact hk
  | cons kr rest ih =>
    intro e₁ e₂ e₁' e₂' h1 h2 hk
    rcases processRule_shape env data kr with herr | ⟨w, hw⟩
    · rw [processRules, herr e₁] at h1
      simp at h1
    · rw [processRules_cons_ok env data e₁ kr rest _ (hw e₁)] at h1
      rw [processRules_cons_ok env data e₂ kr rest _ (hw e₂)] at h2
      exact ih _ _ _ _ h1 h2 (jsGet_applyCheck_congr k kr.key w e₁ e₂ hk)

theorem jsGet_processRules_not_mem (env : Env) (data : Data) (rules : List KeyRule)
    (k : String) (hk : k ∉ rules.map KeyRule.key) :
    ∀ e e', processRules env data e rules = .ok e' → jsGet e' k = jsGet e k := by
  induction rules with
  | nil =>
    intro e e' h
    simp [processRules] at h
    rw [← h]
  | cons kr rest ih =>
    intro e e' h
    simp only [List.map_cons, List.mem_cons, not_or] at hk
    cases hr : processRule env data e kr with
    | error er =>
      rw [processRules, hr] at h
      simp at h
    | ok e1 =>
      rw [processRules_cons_ok env data e kr rest e1 hr] at h
      calc jsGet e' k = jsGet e1 k := ih (by simpa using hk.2) e1 e' h
        _ = jsGet e k := jsGet_processRule_ne env data kr e e1 hr k hk.1

theorem mem_processRules (env : Env) (data : Data) (rules : List KeyRule) :
    ∀ e e', processRules env data e rules = .ok e' →
      ∀ x : String × String, x ∈ e' → x ∈ e ∨ x.1 ∈ rules.map KeyRule.key := by
  induction rules with
  | nil =>
    intro e e' h x hx
    simp [processRules] at h
    rw [← h] at hx
    exact Or.inl hx
  | cons kr rest ih =>
    intro e e' h x hx
    rcases processRule_shape env data kr with herr | ⟨w, hw⟩
    · rw [processRules, herr e] at h
      simp at h
    · rw [processRules_cons_ok env data e kr rest _ (hw e)] at h
      rcases ih _ _ h x hx with hmem | htail
      · cases w with
        | none => exact Or.inl hmem
        | some m =>
          rcases mem_jsSet e kr.key m x hmem with hmem' | hkey
          · exact Or.inl hmem'
          · exact Or.inr (by simp [hkey])
      · exact Or.inr (by simp [htail])

/-- C8: for every input data record, a rule set declaring zero fields makes
validate return the valid verdict with an empty error map. -/
theorem c8_empty_rules_valid (env : Env) (data : Data) :
    validate env (normalize []) data = .ok (true, []) := rfl

/-- C9: re-declaring an identical rule set yields identical validation
results for identical data: updateRules replaces the held rules independent
of the previous state, so a second identical declaration changes nothing. -/
theorem c9_normalize_idempotent (env : Env) (s : HookState)
    (decl : List (String × RuleSpec)) (data : Data) :
    validate env (updateRules (updateRules s decl) decl).rules data =
      validate env (updateRules s decl).rules data := rfl

/-- C7: for a field declared with only the required check, validate errors on
null, the empty string, numeric zero and Boolean false, and passes on the
non-empty string x. -/
theorem c7_required_falsy_values (env : Env) (key : String) :
    validate env [⟨key, onlyRequiredRule⟩] [(key, vNull)] =
      .ok (false, [(key, getTranslation env "This field is required" [])]) ∧
    validate env [⟨key, onlyRequiredRule⟩] [(key, vStr "")] =
      .ok (false, [(key, getTranslation env "This field is required" [])]) ∧
    validate env [⟨key, onlyRequiredRule⟩] [(key, vNum 0)] =
      .ok (false, [(key, getTranslation env "This field is required" [])]) ∧
    validate env [⟨key, onlyRequiredRule⟩] [(key, vBool false)] =
      .ok (false, [(key, getTranslation env "This field is required" [])]) ∧
    validate env [⟨key, onlyRequiredRule⟩] [(key, vStr "x")] = .ok (true, []) := by
  refine ⟨?_, ?_, ?_, ?_, ?_⟩ <;>
    simp [validate, processRules, processRule, runChecks, runCustom, runBlockly,
      onlyRequiredRule, dataGet, requiredTruthy, truthy, nonNull, requiredMsg, ruleMsg,
      jsSet, builtinResults, applyCheck, checkIsEmail, checkIsURL, checkMinLength,
      checkMaxLength, checkPattern, checkMin, checkMax, checkLtDate, checkLteDate,
      checkGtDate, checkGteDate, dateArgTruthy]

/-- C5: a check configured as an override record fails with the record
message verbatim: the required override with message M records exactly M for
every environment (so the message lookup is never consulted), and the
message resolution of an override record returns its message for every
check. -/
theorem c5_override_message (env : Env) (key M : String) (data : Data)
    (hfalsy : truthy (dataGet data key) = false) :
    validate env [⟨key, { required := some (.withMsg () M) }⟩] data =
      .ok (false, [(key, M)]) ∧
    ∀ (α : Type) (v : α) (m d : String), ruleMsg (RuleArg.withMsg v m) d = m := by
  constructor
  · simp [validate, processRules, processRule, runChecks, runCustom, runBlockly,
      requiredTruthy, hfalsy, requiredMsg, ruleMsg, jsSet]
  · intro α v m d
    rfl

/-- C5 witness: the required override with message M on an absent value
yields exactly M. -/
theorem c5_override_message_witness :
    validate trivEnv [⟨"f", c5Rule⟩] [] = .ok (false, [("f", "M")]) :=
  (c5_override_message trivEnv "f" "M" [] rfl).1

/-- C4 counterexample: a custom check returning the number 5, which is not
exactly true, is treated as passing (no error, valid verdict), contradicting
the claim that any return other than exactly true is a failure. -/
theorem c4_counterexample :
    validate trivEnv [⟨"f", truthyNumRule⟩] [] = .ok (true, []) ∧ vNum 5 ≠ vBool true :=
  ⟨rfl, by decide⟩

/-- C4 amended: a custom check returning any value is treated as a failure
exactly when the returned value is falsy or a string; a truthy non-string
return passes; validation never crashes on a contract-violating return
value. -/
theorem c4_custom_contract (env : Env) (key : String) (v : Value) (data : Data) :
    validate env [⟨key, { custom := some (fun _ _ => JsOutcome.ret v) }⟩] data =
      .ok (if !truthy v || isStringV v then
            (false, [(key, if truthy v then toJsString v
                           else getTranslation env "Invalid value" [])])
          else (true, [])) := by
  by_cases hb : (!truthy v || isStringV v) = true <;>
    by_cases hnn : nonNull (dataGet data key) = true <;>
      simp [validate, processRules, processRule, runChecks, runCustom, runBlockly,
        requiredTruthy, builtinResults, applyCheck, checkIsEmail, checkIsURL,
        checkMinLength, checkMaxLength, checkPattern, checkMin, checkMax,
        checkLtDate, checkLteDate, checkGtDate, checkGteDate, dateArgTruthy,
        jsSet, hb, hnn]

/-- C3 counterexample: with a rule whose custom check raises, the exception
propagates out of validate, refuting the claim that no error is ever thrown
out of the call. -/
theorem c3_counterexample :
    validate trivEnv [⟨"f", throwingRule⟩] [] = .error () := rfl

/-- C3 amended: validate never raises provided every configured custom check
returns a value on the given data; every other failure mode, including every
fault of the dynamically compiled check, is absorbed into the result. -/
theorem c3_no_throw (env : Env) (rules : List KeyRule) (data : Data)
    (h : customsReturn rules data) : isOkRes (validate env rules data) = true := by
  by_cases hempty : rules.isEmpty = true
  · simp [validate, hempty, isOkRes]
  · obtain ⟨e', h'⟩ := processRules_ok env data rules h []
    simp [validate, hempty, h', isOkRes]

/-- C3 witness: a rule set whose single custom-free rule satisfies the
no-raise hypothesis makes validate return. -/
theorem c3_no_throw_witness :
    isOkRes (validate trivEnv [⟨"f", onlyRequiredRule⟩] []) = true := by
  refine c3_no_throw trivEnv [⟨"f", onlyRequiredRule⟩] [] ?_
  intro kr hkr f hf
  simp only [List.mem_singleton] at hkr
  subst hkr
  simp [onlyRequiredRule] at hf

/-- C2: when required is declared and the value is falsy, the required
message is recorded and no built-in check runs (the result equals that of the
rule stripped of every built-in check), while custom and blockly still run:
with neither present the error is the required message, a custom check
failing with a non-empty string overwrites it, and a blockly check failing
with a non-empty string overwrites it as well. -/
theorem c2_required_skips_builtins (env : Env) (key : String) (r : Rule) (data : Data)
    (hreq : requiredTruthy r.required = true)
    (hfalsy : truthy (dataGet data key) = false) :
    validate env [⟨key, r⟩] data = validate env [⟨key, stripBuiltins r⟩] data ∧
    (r.custom = none → r.blockly = none →
      ∃ arg, r.required = some arg ∧
        validate env [⟨key, r⟩] data = .ok (false, [(key, requiredMsg env arg)])) ∧
    (∀ f s, r.custom = some f → f data key = .ret (vStr s) → s ≠ "" → r.blockly = none →
      validate env [⟨key, r⟩] data = .ok (false, [(key, s)])) ∧
    (∀ b s, r.custom = none → r.blockly = some b → b.source ≠ "" →
      b.run data = .ret (vStr s) → s ≠ "" →
      validate env [⟨key, r⟩] data = .ok (false, [(key, s)])) := by
  have hcond : (requiredTruthy r.required && !truthy (dataGet data key)) = true := by
    simp [hreq, hfalsy]
  have hsr : (stripBuiltins r).required = r.required := rfl
  have hsc : (stripBuiltins r).custom = r.custom := rfl
  have hsb : (stripBuiltins r).blockly = r.blockly := rfl
  have hchecks : ∀ e, runChecks env (stripBuiltins r) (dataGet data key) key e =
      runChecks env r (dataGet data key) key e := by
    intro e
    simp only [runChecks, hsr, hcond, if_pos]
  have hcu : ∀ e, runCustom env (stripBuiltins r) data key e = runCustom env r data key e := by
    intro e
    simp only [runCustom, hsc]
  have hbl : ∀ e, runBlockly env (stripBuiltins r) data key e = runBlockly env r data key e := by
    intro e
    simp only [runBlockly, hsb]
  have hpr : processRule env data [] ⟨key, stripBuiltins r⟩ = processRule env data [] ⟨key, r⟩ := by
    simp only [processRule, hchecks, hcu, hbl]
  refine ⟨?_, ?_, ?_, ?_⟩
  · simp only [validate, processRules, hpr]
    rfl
  · intro hcn hbn
    cases hr : r.required with
    | none =>
      rw [hr] at hreq
      simp [requiredTruthy] at hreq
    | some arg =>
      refine ⟨arg, rfl, ?_⟩
      simp [validate, processRules, processRule, runChecks, runCustom, runBlockly,
        hr, hcn, hbn, jsSet, requiredTruthy, hfalsy]
  · intro f s hcf hfs hs hbn
    have hts : truthy (vStr s) = true := by simp [truthy, hs]
    simp [validate, processRules, processRule, runChecks, runCustom, runBlockly,
      hreq, hfalsy, hcf, hfs, hbn, hts, isStringV, toJsString, jsSet]
  · intro b s hcn hbb hbsrc hrun hs
    have hts : truthy (vStr s) = true := by simp [truthy, hs]
    have hbsrc' : (b.source != "") = true := by simp [hbsrc]
    simp [validate, processRules, processRule, runChecks, runCustom, runBlockly,
      hreq, hfalsy, hcn, hbb, hbsrc', hrun, hts, isStringV, toJsString, jsSet]

/-- C2 witness: required fails on an absent value; a failing custom check
overwrites the required message with its own string, and so does a failing
blockly check. -/
theorem c2_required_skips_builtins_witness :
    validate trivEnv [⟨"f", c2Rule⟩] [] = .ok (false, [("f", "bad")]) ∧
    validate trivEnv [⟨"f", c2bRule⟩] [] = .ok (false, [("f", "bbad")]) :=
  ⟨(c2_required_skips_builtins trivEnv "f" c2Rule [] rfl rfl).2.2.1
      (fun _ _ => .ret (vStr "bad")) "bad" rfl rfl (by decide) rfl,
   (c2_required_skips_builtins trivEnv "f" c2bRule [] rfl rfl).2.2.2
      ⟨"return false", fun _ => .ret (vStr "bbad")⟩ "bbad" rfl rfl (by decide) rfl (by decide)⟩

/-- C10: every key of the returned error map is a declared field key; a field
with no declared rule never receives an error. -/
theorem c10_errors_only_declared_keys (env : Env) (rules : List KeyRule) (data : Data)
    (res : Bool × ErrMap) (hok : validate env rules data = .ok res) :
    ∀ k m, (k, m) ∈ res.2 → k ∈ rules.map KeyRule.key := by
  intro k m hmem
  by_cases hempty : rules.isEmpty = true
  · simp only [validate, hempty, if_pos] at hok
    obtain rfl : ((true : Bool), ([] : ErrMap)) = res := Except.ok.inj hok
    simp at hmem
  · simp only [validate, hempty, if_neg, Bool.false_eq_true, not_false_eq_true] at hok
    cases hpr : processRules env data [] rules with
    | error e =>
      rw [hpr] at hok
      simp at hok
    | ok errs =>
      rw [hpr] at hok
      obtain rfl : (errs.isEmpty, errs) = res := Except.ok.inj hok
      rcases mem_processRules env data rules [] errs hpr (k, m) hmem with hin | hkey
      · simp at hin
      · exact hkey

/-- C10 witness: the single error produced for the declared field f has a
declared key. -/
theorem c10_errors_only_declared_keys_witness :
    "f" ∈ ([⟨"f", onlyRequiredRule⟩] : List KeyRule).map KeyRule.key := by
  refine c10_errors_only_declared_keys trivEnv [⟨"f", onlyRequiredRule⟩] []
    (false, [("f", "Validation.This field is required")]) rfl "f"
    "Validation.This field is required" ?_
  simp

/-- C1: with no custom and no blockly check, when required does not fail, the
value is non-null and at least two of the built-in checks fail, the error
recorded for the field is the message of the last failing built-in check in
the fixed evaluation order. -/
theorem c1_last_failing_check_wins (env : Env) (key : String) (r : Rule) (data : Data)
    (hreq : (requiredTruthy r.required && !truthy (dataGet data key)) = false)
    (hval : nonNull (dataGet data key) = true)
    (hcustom : r.custom = none) (hblockly : r.blockly = none)
    (hfails : 2 ≤ ((builtinResults env r (dataGet data key)).filterMap id).length) :
    ∃ m, lastSome (builtinResults env r (dataGet data key)) = some m ∧
      validate env [⟨key, r⟩] data = .ok (false, [(key, m)]) := by
  cases hls : lastSome (builtinResults env r (dataGet data key)) with
  | none =>
    rw [filterMap_nil_of_lastSome_none _ hls] at hfails
    simp at hfails
  | some m =>
    refine ⟨m, rfl, ?_⟩
    simp [validate, processRules, processRule, runChecks, runCustom, runBlockly,
      hreq, hval, hcustom, hblockly, foldl_applyCheck, hls, applyCheck, jsSet]

/-- C1 witness: minLength 5 and the digits-only pattern both fail on the
input ab; the recorded message is the pattern failure message, the later of
the two failing checks. -/
theorem c1_last_failing_check_wins_witness :
    validate trivEnv [⟨"f", c1Rule⟩] [("f", vStr "ab")] =
      .ok (false, [("f", "Validation.Invalid value")]) := by
  obtain ⟨m, hm, hv⟩ := c1_last_failing_check_wins trivEnv "f" c1Rule [("f", vStr "ab")]
    rfl rfl rfl rfl (by decide)
  have hconc : lastSome (builtinResults trivEnv c1Rule (dataGet [("f", vStr "ab")] "f")) =
      some "Validation.Invalid value" := rfl
  obtain rfl : m = "Validation.Invalid value" := Option.some.inj (hm.symm.trans hconc)
  exact hv

/-- C6: a field whose blockly check raises gets the fixed blockly validation
error message, validate still returns, and every other field key carries the
same error as a run without the faulty field. -/
theorem c6_blockly_fault_isolated (env : Env) (data : Data) (rs1 rs2 : List KeyRule)
    (key : String) (r : Rule) (b : BlocklyCheck)
    (hb : r.blockly = some b) (hbs : b.source ≠ "") (hbt : b.run data = .thrown)
    (hc : customsReturn (rs1 ++ ⟨key, r⟩ :: rs2) data)
    (hkey : key ∉ rs2.map KeyRule.key) :
    isOkRes (validate env (rs1 ++ ⟨key, r⟩ :: rs2) data) = true ∧
    jsGet (errsOf (validate env (rs1 ++ ⟨key, r⟩ :: rs2) data)) key =
      some (getTranslation env "Validation error (blockly)" []) ∧
    ∀ k, k ≠ key → jsGet (errsOf (validate env (rs1 ++ ⟨key, r⟩ :: rs2) data)) k =
      jsGet (errsOf (validate env (rs1 ++ rs2) data)) k := by
  have hc1 : customsReturn rs1 data := by
    intro kr hm f hf
    exact hc kr (by simp [hm]) f hf
  have hc2 : customsReturn rs2 data := by
    intro kr hm f hf
    exact hc kr (by simp [hm]) f hf
  have hcm : ∀ f, r.custom = some f → ∃ v, f data key = JsOutcome.ret v := by
    intro f hf
    exact hc ⟨key, r⟩ (by simp) f hf
  obtain ⟨e1, he1⟩ := processRules_ok env data rs1 hc1 []
  obtain ⟨f1, hf1⟩ := processRule_ok_of_ret env data ⟨key, r⟩ hcm e1
  have hbs' : (b.source != "") = true := by simp [hbs]
  have hf1key : jsGet f1 key = some (getTranslation env "Validation error (blockly)" []) := by
    unfold processRule at hf1
    cases hcu : runCustom env r data key (runChecks env r (dataGet data key) key e1) with
    | error e =>
      rw [hcu] at hf1
      simp at hf1
    | ok e2 =>
      rw [hcu] at hf1
      obtain rfl : runBlockly env r data key e2 = f1 := Except.ok.inj hf1
      simp only [runBlockly, hb, hbs', if_pos, hbt]
      exact jsGet_jsSet_self e2 key _
  have hf1ne : ∀ k, k ≠ key → jsGet f1 k = jsGet e1 k := by
    intro k hk
    exact jsGet_processRule_ne env data ⟨key, r⟩ e1 f1 hf1 k hk
  obtain ⟨e2', he2'⟩ := processRules_ok env data rs2 hc2 f1
  have hwhole : processRules env data [] (rs1 ++ ⟨key, r⟩ :: rs2) = .ok e2' := by
    rw [processRules_append]
    simp only [he1]
    rw [processRules_cons_ok env data e1 ⟨key, r⟩ rs2 f1 hf1, he2']
  have hni : (rs1 ++ ⟨key, r⟩ :: rs2).isEmpty = false := by
    cases rs1 <;> simp [List.isEmpty]
  have hvalbig : validate env (rs1 ++ ⟨key, r⟩ :: rs2) data = .ok (e2'.isEmpty, e2') := by
    simp [validate, hni, hwhole]
  have he2key : jsGet e2' key = jsGet f1 key :=
    jsGet_processRules_not_mem env data rs2 key hkey f1 e2' he2'
  refine ⟨by simp [hvalbig, isOkRes], by simp [hvalbig, errsOf, he2key, hf1key], ?_⟩
  intro k hk
  by_cases h12 : rs1 ++ rs2 = []
  · obtain ⟨hrs1, hrs2⟩ := List.append_eq_nil.mp h12
    subst hrs1
    subst hrs2
    obtain rfl : ([] : ErrMap) = e1 := Except.ok.inj he1
    obtain rfl : f1 = e2' := Except.ok.inj he2'
    rw [hvalbig]
    have hrhs : validate env ([] ++ ([] : List KeyRule)) data = .ok (true, []) := rfl
    rw [hrhs]
    exact hf1ne k hk
  · have hni2 : (rs1 ++ rs2).isEmpty = false := by
      cases h : rs1 ++ rs2 with
      | nil => exact absurd h h12
      | cons a l => rfl
    obtain ⟨e3, he3⟩ := processRules_ok env data rs2 hc2 e1
    have hwhole2 : processRules env data [] (rs1 ++ rs2) = .ok e3 := by
      rw [processRules_append]
      simp only [he1]
      rw [he3]
    have hval2 : validate env (rs1 ++ rs2) data = .ok (e3.isEmpty, e3) := by
      simp [validate, hni2, hwhole2]
    rw [hvalbig, hval2]
    exact jsGet_processRules_congr env data rs2 k f1 e1 e2' e3 he2' he3 (hf1ne k hk)

/-- C6 witness: the blockly raising rule on field f yields the fixed message
for f while the required error of the other field g is unaffected. -/
theorem c6_blockly_fault_isolated_witness :
    jsGet (errsOf (validate trivEnv [⟨"f", blocklyThrowRule⟩, ⟨"g", onlyRequiredRule⟩] []))
      "f" = some "Validation.Validation error (blockly)" ∧
    jsGet (errsOf (validate trivEnv [⟨"f", blocklyThrowRule⟩, ⟨"g", onlyRequiredRule⟩] []))
      "g" = jsGet (errsOf (validate trivEnv [⟨"g", onlyRequiredRule⟩] [])) "g" := by
  have hcr : customsReturn ([] ++ ⟨"f", blocklyThrowRule⟩ :: [⟨"g", onlyRequiredRule⟩]) [] := by
    intro kr hkr f hf
    simp only [List.nil_append, List.mem_cons, List.not_mem_nil, or_false] at hkr
    rcases hkr with hkr | hkr <;> subst hkr <;>
      simp [blocklyThrowRule, onlyRequiredRule] at hf
  have h := c6_blockly_fault_isolated trivEnv [] [] [⟨"g", onlyRequiredRule⟩] "f"
    blocklyThrowRule ⟨"boom()", fun _ => .thrown⟩ rfl (by decide) rfl hcr (by decide)
  exact ⟨h.2.1, h.2.2 "g" (by decide)⟩

end FormValidator
